import Mathlib

/-!
# zapctx: context-scoped zap logger

Shallow embedding of `zapctx.go`.  The package is a facade over two
collaborators that are not part of the repository: Go's `context` package and
the `go.uber.org/zap` logging library.  The parts of both that the facade calls
are modelled below (namespaces `zapcore`, `zap`, `context`); the package itself
is in namespace `zapctx`, one definition per source function.

Conventions.
* A `*zap.Logger` is modelled as `Option zap.Logger`: `none` is the nil pointer,
  `some l` a pointer to the (immutable after construction) logger `l`.
* A call on a nil `*zap.Logger` panics before it has any effect:
  `Except.error Panic.nilDereference`.
* A hook is a Go function value: nil, or a function that, called with an entry,
  returns nil, returns an error or panics.
* The two package-level variables `logLevel` and `hooks` are the explicit
  state `State`; a core built over `&logLevel` holds a reference
  (`LevelEnabler.logLevel`) that is read from the current state on every call.
* What a logging call does to the outside world is the list of `Event`s it
  produces, in order.  A panic raised while the entry is written (by a hook, by
  the call of a nil hook, by the terminal action of the panic level) is the last
  event of the list, so that what happened before it stays visible.
-/

namespace zapcore

/-- Modelled from the spec: `zapcore.Level`, an ordered severity (an int8 in the
library: debug = -1 < info = 0 < warn < error < dpanic < panic < fatal). -/
abbrev Level := Int

def DebugLevel : Level := -1
def InfoLevel : Level := 0
def WarnLevel : Level := 1
def ErrorLevel : Level := 2
def DPanicLevel : Level := 3
def PanicLevel : Level := 4
def FatalLevel : Level := 5

/-- Modelled from the spec: `zapcore.FieldType`, the tag of a structured field. -/
inductive FieldType where
  | UnknownType
  | BoolType
  | Int64Type
  | StringType
  | ErrorType
deriving DecidableEq, Repr

/-- Modelled from the spec: `zapcore.Field`, one structured key/value pair. -/
structure Field where
  Key : String
  Typ : FieldType
  Integer : Int
  Str : String
deriving DecidableEq, Repr

/-- Modelled from the spec: `zapcore.Entry`, the record handed to cores and hooks.
`Caller` is the number of stack frames skipped when the caller location was
captured (`none`: not captured); `Stack` tells whether a stack trace was
attached.  The timestamp is left out. -/
structure Entry where
  Level : Level
  LoggerName : String
  Message : String
  Caller : Option Int
  Stack : Bool
deriving DecidableEq, Repr

/-- What one call of a hook function does: it returns nil, returns an error, or
panics. -/
inductive HookOutcome where
  | ok
  | error (msg : String)
  | panic (msg : String)
deriving DecidableEq, Repr

/-- A non-nil function value of type `func(zapcore.Entry) error`: `id` stands for
the identity of the function value, `run` for what a call with a given entry
does. -/
structure Closure where
  id : Nat
  run : Entry → HookOutcome

/-- A value of the function type `func(zapcore.Entry) error`: `none` is the nil
function, `some f` the function `f`. -/
abbrev HookFunc := Option Closure

/-- The message of the run-time panic raised by a call of a nil function. -/
def nilCallMessage : String :=
  "runtime error: invalid memory address or nil pointer dereference"

/-- Whether a list is empty is decidable without comparing elements. -/
instance decidableEqNil (α : Type) (l : List α) : Decidable (l = []) :=
  match l with
  | [] => isTrue rfl
  | _ :: _ => isFalse (fun h => List.noConfusion h)

/-- Modelled from the spec: a `zapcore.WriteSyncer`, the sink of a core. -/
inductive Sink where
  | stdout
  | stderr
  | discard
deriving DecidableEq, Repr

/-- Modelled from the spec: `zapcore.EncoderConfig`, the field names and encoders
of the structured encoder. -/
structure EncoderConfig where
  TimeKey : String
  LevelKey : String
  NameKey : String
  CallerKey : String
  MessageKey : String
  StacktraceKey : String
  LineEnding : String
  EncodeLevel : String
  EncodeTime : String
  EncodeDuration : String
  EncodeCaller : String
deriving DecidableEq, Repr

def DefaultLineEnding : String := "\n"

/-- Modelled from the spec: a `zapcore.LevelEnabler`.  `level l` is the constant
threshold `l`; `logLevel` is the pointer `&logLevel` to the package's
`zap.AtomicLevel`, whose current value lives in the package state. -/
inductive LevelEnabler where
  | level (l : Level)
  | logLevel
deriving DecidableEq, Repr

/-- Modelled from the spec: `Level.Enabled(lvl)`, true when `lvl` is at or above
the threshold, and `AtomicLevel.Enabled`, the same on the value currently
stored; `cur` is the value currently held by the package's `logLevel`. -/
def LevelEnabler.Enabled (cur : Level) (e : LevelEnabler) (lvl : Level) : Bool :=
  match e with
  | LevelEnabler.level l => decide (l ≤ lvl)
  | LevelEnabler.logLevel => decide (cur ≤ lvl)

/-- Modelled from the spec: the implementations of `zapcore.Core` the package can
meet: the no-op core of `zap.NewNop`, the `ioCore` of `zapcore.NewCore`
(threshold, encoder configuration, sink and the fields accumulated by `With`)
and the `hooked` core of `zapcore.RegisterHooks`. -/
inductive Core where
  | nop
  | ioCore (enab : LevelEnabler) (enc : EncoderConfig) (out : Sink) (fields : List Field)
  | hooked (inner : Core) (funcs : List HookFunc)

/-- Modelled from the spec: `zapcore.NewCore(enc, ws, enab)`. -/
def NewCore (enc : EncoderConfig) (ws : Sink) (enab : LevelEnabler) : Core :=
  Core.ioCore enab enc ws []

/-- Modelled from the spec: `zapcore.RegisterHooks(core, hooks...)`. -/
def RegisterHooks (core : Core) (hooks : List HookFunc) : Core :=
  Core.hooked core ([] ++ hooks)

/-- Modelled from the spec: `Core.Enabled`; the hooked core embeds the wrapped
core and inherits its answer. -/
def Core.Enabled (cur : Level) : Core → Level → Bool
  | Core.nop, _ => false
  | Core.ioCore enab _ _ _, lvl => enab.Enabled cur lvl
  | Core.hooked inner _, lvl => Core.Enabled cur inner lvl

/-- Modelled from the spec: `Core.With(fields)`, a core that carries the extra
fields; the receiver is not changed. -/
def Core.With : Core → List Field → Core
  | Core.nop, _ => Core.nop
  | Core.ioCore enab enc out fs, fields => Core.ioCore enab enc out (fs ++ fields)
  | Core.hooked inner funcs, fields => Core.hooked (Core.With inner fields) funcs

/-- Modelled from the spec: what `CheckedEntry.Write` does after the cores have
written. -/
inductive CheckWriteAction where
  | WriteThenNoop
  | WriteThenPanic
  | WriteThenFatal
deriving DecidableEq, Repr

/-- Modelled from the spec: `zapcore.CheckedEntry`, an entry together with the
sink for write errors (`none`: nil), the terminal action and the cores that
agreed to write it. -/
structure CheckedEntry where
  Entry : Entry
  ErrorOutput : Option Sink
  should : CheckWriteAction
  cores : List Core

/-- Modelled from the spec: `(*CheckedEntry).AddCore`; a nil receiver is replaced
by a fresh checked entry for `ent`. -/
def CheckedEntry.AddCore (ce : Option CheckedEntry) (ent : zapcore.Entry) (core : Core) :
    Option CheckedEntry :=
  match ce with
  | none =>
    some { Entry := ent, ErrorOutput := none, should := CheckWriteAction.WriteThenNoop,
           cores := [core] }
  | some c => some { c with cores := c.cores ++ [core] }

/-- Modelled from the spec: `(*CheckedEntry).Should`. -/
def CheckedEntry.Should (ce : Option CheckedEntry) (ent : zapcore.Entry)
    (should : CheckWriteAction) :
    Option CheckedEntry :=
  match ce with
  | none => some { Entry := ent, ErrorOutput := none, should := should, cores := [] }
  | some c => some { c with should := should }

/-- Modelled from the spec: `Core.Check(ent, ce)`: a core that is enabled for the
entry's level adds itself; the hooked core adds itself after the wrapped core
when the wrapped core accepted the entry. -/
def Core.Check (cur : Level) : Core → Entry → Option CheckedEntry → Option CheckedEntry
  | Core.nop, _, ce => ce
  | Core.ioCore enab enc out fs, ent, ce =>
    if enab.Enabled cur ent.Level then
      CheckedEntry.AddCore ce ent (Core.ioCore enab enc out fs)
    else ce
  | Core.hooked inner funcs, ent, ce =>
    match Core.Check cur inner ent ce with
    | some downstream => CheckedEntry.AddCore (some downstream) ent (Core.hooked inner funcs)
    | none => ce

/-- Observable effects of a logging call, in the order they happen: a record
written to a sink, a sync of a sink, a call of the hook function `id` with an
entry, a report of write errors on the error output, a panic (nothing of the
call happens after it), and the exit of the process. -/
inductive Event where
  | write (out : Sink) (ent : Entry) (fields : List Field)
  | sync (out : Sink)
  | hook (id : Nat) (ent : Entry)
  | errorOutput (out : Sink) (errs : List String)
  | panic (msg : String)
  | exit
deriving DecidableEq, Repr

/-- The outcome of a `Write`: the events it produced, the errors it collected,
and whether it was cut short by a panic. -/
structure WriteResult where
  events : List Event
  errs : List String
  panicked : Bool
deriving DecidableEq, Repr

/-- Modelled from the spec: the loop of `(*hooked).Write`: each function is called
in turn with the entry and its error, when it returns one, is appended to the
result; a call of a nil function and a function that panics end the loop with
a panic. -/
def callHooks (ent : Entry) : List HookFunc → WriteResult
  | [] => { events := [], errs := [], panicked := false }
  | none :: _ => { events := [Event.panic nilCallMessage], errs := [], panicked := true }
  | some f :: rest =>
    match f.run ent with
    | HookOutcome.ok =>
      { events := Event.hook f.id ent :: (callHooks ent rest).events,
        errs := (callHooks ent rest).errs,
        panicked := (callHooks ent rest).panicked }
    | HookOutcome.error m =>
      { events := Event.hook f.id ent :: (callHooks ent rest).events,
        errs := m :: (callHooks ent rest).errs,
        panicked := (callHooks ent rest).panicked }
    | HookOutcome.panic m =>
      { events := [Event.hook f.id ent, Event.panic m], errs := [], panicked := true }

/-- Modelled from the spec: `Core.Write(ent, fields)`.  The io core encodes the
entry with its accumulated fields followed by the call's fields and writes the
record to its sink, syncing above error level (the sink is taken to accept
the record); the hooked core calls its functions (the wrapped core registered
itself with the checked entry and is not called again here). -/
def Core.Write : Core → Entry → List Field → WriteResult
  | Core.nop, _, _ => { events := [], errs := [], panicked := false }
  | Core.ioCore _ _ out fs, ent, fields =>
    { events := Event.write out ent (fs ++ fields) ::
        (if ErrorLevel < ent.Level then [Event.sync out] else []),
      errs := [], panicked := false }
  | Core.hooked _ funcs, ent, _ => callHooks ent funcs

/-- Modelled from the spec: the loop of `(*CheckedEntry).Write` over the registered
cores, collecting their errors; a panic in a core ends it. -/
def writeCores (ent : Entry) (fields : List Field) : List Core → WriteResult
  | [] => { events := [], errs := [], panicked := false }
  | core :: rest =>
    if (core.Write ent fields).panicked then core.Write ent fields
    else
      { events := (core.Write ent fields).events ++ (writeCores ent fields rest).events,
        errs := (core.Write ent fields).errs ++ (writeCores ent fields rest).errs,
        panicked := (writeCores ent fields rest).panicked }

/-- Modelled from the spec: `(*CheckedEntry).Write(fields...)`: every registered
core writes, collected errors are reported on the error output when there is
one, then the terminal action is taken. -/
def CheckedEntry.Write (ce : Option CheckedEntry) (fields : List Field) : List Event :=
  match ce with
  | none => []
  | some c =>
    if (writeCores c.Entry fields c.cores).panicked then
      (writeCores c.Entry fields c.cores).events
    else
      (writeCores c.Entry fields c.cores).events ++
      (match (writeCores c.Entry fields c.cores).errs, c.ErrorOutput with
       | [], _ => []
       | _ :: _, none => []
       | e :: es, some out => [Event.errorOutput out (e :: es), Event.sync out]) ++
      (match c.should with
       | CheckWriteAction.WriteThenNoop => []
       | CheckWriteAction.WriteThenPanic => [Event.panic c.Entry.Message]
       | CheckWriteAction.WriteThenFatal => [Event.exit])

end zapcore

/-- A run-time panic raised before the call had any effect: the dereference of a
nil `*zap.Logger`. -/
inductive Panic where
  | nilDereference
deriving DecidableEq, Repr

namespace zap

open zapcore

/-- Modelled from the spec: the `zap.Logger` struct (core, flags, name, error
output, stack-trace threshold, caller skip). -/
structure Logger where
  core : Core
  development : Bool
  addCaller : Bool
  name : String
  errorOutput : Sink
  addStack : LevelEnabler
  callerSkip : Int

/-- A `*zap.Logger`: `none` is nil. -/
abbrev LoggerPtr := Option Logger

/-- Modelled from the spec: a `zap.Option` passed to `zap.New` or `WithOptions`. -/
inductive LoggerOption where
  | AddCaller
  | AddCallerSkip (skip : Int)
  | AddStacktrace (lvl : LevelEnabler)
  | Hooks (hooks : List HookFunc)

/-- Modelled from the spec: `Option.apply(log)`. -/
def LoggerOption.apply (log : Logger) : LoggerOption → Logger
  | LoggerOption.AddCaller => { log with addCaller := true }
  | LoggerOption.AddCallerSkip skip => { log with callerSkip := log.callerSkip + skip }
  | LoggerOption.AddStacktrace lvl => { log with addStack := lvl }
  | LoggerOption.Hooks hooks => { log with core := RegisterHooks log.core hooks }

/-- Modelled from the spec: `(*Logger).clone`, a copy of the pointee; panics on a
nil receiver. -/
def Logger.clone (log : LoggerPtr) : Except Panic Logger :=
  match log with
  | none => Except.error Panic.nilDereference
  | some l => Except.ok l

/-- Modelled from the spec: `(*Logger).WithOptions(opts...)`: clones and applies
the options in order; the result is a fresh non-nil pointer. -/
def Logger.WithOptions (log : LoggerPtr) (opts : List LoggerOption) : Except Panic LoggerPtr :=
  match Logger.clone log with
  | Except.error e => Except.error e
  | Except.ok c => Except.ok (some (opts.foldl LoggerOption.apply c))

/-- Modelled from the spec: `zap.New(core, options...)` for a non-nil core. -/
def New (core : Core) (options : List LoggerOption) : LoggerPtr :=
  some (options.foldl LoggerOption.apply
    { core := core, development := false, addCaller := false, name := "",
      errorOutput := Sink.stderr, addStack := LevelEnabler.level (FatalLevel + 1),
      callerSkip := 0 })

/-- Modelled from the spec: `zap.NewNop()`. -/
def NewNop : LoggerPtr :=
  some { core := Core.nop, development := false, addCaller := false, name := "",
         errorOutput := Sink.discard, addStack := LevelEnabler.level (FatalLevel + 1),
         callerSkip := 0 }

/-- Modelled from the spec: `(*Logger).With(fields...)`: with no fields the
receiver itself, otherwise a clone whose core carries the extra fields. -/
def Logger.With (log : LoggerPtr) (fields : List Field) : Except Panic LoggerPtr :=
  if fields.length = 0 then Except.ok log
  else
    match Logger.clone log with
    | Except.error e => Except.error e
    | Except.ok l => Except.ok (some { l with core := l.core.With fields })

/-- Modelled from the spec: `(*Logger).Core()`. -/
def Logger.Core (log : LoggerPtr) : Except Panic Core :=
  match log with
  | none => Except.error Panic.nilDereference
  | some l => Except.ok l.core

/-- Modelled from the spec: `(*Logger).check(lvl, msg)` on a non-nil logger: below
dpanic a disabled level is dropped at once; otherwise the core is asked, the
terminal action of panic and fatal levels is set, and an entry that will be
written gets the logger's error output and is annotated with caller and stack
trace. -/
def Logger.check (cur : Level) (log : Logger) (lvl : Level) (msg : String) :
    Option CheckedEntry :=
  if lvl < DPanicLevel ∧ ¬ log.core.Enabled cur lvl = true then none
  else
    let ent : Entry :=
      { Level := lvl, LoggerName := log.name, Message := msg, Caller := none, Stack := false }
    let ce := log.core.Check cur ent none
    let willWrite := ce.isSome
    let ce :=
      if lvl = PanicLevel then CheckedEntry.Should ce ent CheckWriteAction.WriteThenPanic
      else if lvl = FatalLevel then CheckedEntry.Should ce ent CheckWriteAction.WriteThenFatal
      else if lvl = DPanicLevel then
        (if log.development then CheckedEntry.Should ce ent CheckWriteAction.WriteThenPanic
         else ce)
      else ce
    if ¬ willWrite then ce
    else
      ce.map (fun c =>
        { c with
          ErrorOutput := some log.errorOutput,
          Entry :=
            { c.Entry with
              Caller := if log.addCaller then some (log.callerSkip + 2) else c.Entry.Caller,
              Stack := if log.addStack.Enabled cur c.Entry.Level then true else c.Entry.Stack } })

/-- Modelled from the spec: the body shared by the level methods of `*Logger`:
the entry is checked and, when the check returns a checked entry, written; a nil
receiver panics when `check` reads its core. -/
def Logger.log (cur : Level) (log : LoggerPtr) (lvl : Level) (msg : String)
    (fields : List Field) : Except Panic (List Event) :=
  match log with
  | none => Except.error Panic.nilDereference
  | some l => Except.ok (CheckedEntry.Write (Logger.check cur l lvl msg) fields)

/-- Modelled from the spec: `(*Logger).Debug(msg, fields...)`. -/
def Logger.Debug (cur : Level) (log : LoggerPtr) (msg : String) (fields : List Field) :
    Except Panic (List Event) :=
  Logger.log cur log DebugLevel msg fields

/-- Modelled from the spec: `(*Logger).Info(msg, fields...)`. -/
def Logger.Info (cur : Level) (log : LoggerPtr) (msg : String) (fields : List Field) :
    Except Panic (List Event) :=
  Logger.log cur log InfoLevel msg fields

/-- Modelled from the spec: `(*Logger).Warn(msg, fields...)`. -/
def Logger.Warn (cur : Level) (log : LoggerPtr) (msg : String) (fields : List Field) :
    Except Panic (List Event) :=
  Logger.log cur log WarnLevel msg fields

/-- Modelled from the spec: `(*Logger).Error(msg, fields...)`. -/
def Logger.Error (cur : Level) (log : LoggerPtr) (msg : String) (fields : List Field) :
    Except Panic (List Event) :=
  Logger.log cur log ErrorLevel msg fields

/-- Modelled from the spec: `(*Logger).Fatal(msg, fields...)`. -/
def Logger.Fatal (cur : Level) (log : LoggerPtr) (msg : String) (fields : List Field) :
    Except Panic (List Event) :=
  Logger.log cur log FatalLevel msg fields

end zap

/-- Modelled from the spec: `zap.String(key, val)`, the string field `key: val`. -/
def zap.String (name val : String) : zapcore.Field :=
  { Key := name, Typ := zapcore.FieldType.StringType, Integer := 0, Str := val }

namespace context

/-- Modelled from the spec: the keys of context values (Go's `context` package is
not part of the repository): `key` is the value `key{}` of the package's private
key type, `foreign n` a key that belongs to other code. -/
inductive Key where
  | key
  | foreign (n : Nat)
deriving DecidableEq, Repr

/-- Modelled from the spec: an interface value stored in a context: a `*zap.Logger` (possibly the nil
pointer) or a value of some other dynamic type. -/
inductive Any where
  | logger (l : zap.LoggerPtr)
  | foreign (n : Nat)

/-- Modelled from the spec: a `context.Context`, an immutable chain of key-value
bindings: the two root contexts, a cancellation wrapper (it
carries no value of its own), and `context.WithValue(parent, key, val)`. -/
inductive Context where
  | Background
  | TODO
  | WithCancel (parent : Context)
  | WithValue (parent : Context) (k : Key) (val : Any)

/-- Modelled from the spec: the method `ctx.Value(key)`: the value of the nearest binding of `key`, or
nil (`none`) when there is none. -/
def Context.Value : Context → Key → Option Any
  | Context.Background, _ => none
  | Context.TODO, _ => none
  | Context.WithCancel parent, k => Context.Value parent k
  | Context.WithValue parent k0 val, k => if k0 = k then some val else Context.Value parent k

end context

namespace zapctx

open zapcore context

/-- The source's `type Hook func(entry zapcore.Entry) error`: a function value,
possibly nil. -/
abbrev Hook := HookFunc

/-- The package-level variables: the value held by the atomic `logLevel` and the
slice `hooks` of type `[]func(entry zapcore.Entry) error`. -/
structure State where
  logLevel : Level
  hooks : List HookFunc

/-- The package state after initialisation: `zap.NewAtomicLevel()` starts at
info, `hooks` is the nil slice. -/
def State.init : State := { logLevel := InfoLevel, hooks := [] }

/-- The constant `traceID`. -/
def traceID : String := "trace_id"

/-- Source function `SetLogLevel(level)`: stores the level in the atomic `logLevel`. -/
def SetLogLevel (st : State) (level : Level) : State :=
  { st with logLevel := level }

/-- Source function `AddHooks(hks...)`: appends the hooks one by one to `hooks`. -/
def AddHooks (st : State) (hks : List Hook) : State :=
  hks.foldl (fun s h => { s with hooks := s.hooks ++ [h] }) st

/-- Source function `from(ctx)`: the logger stored under `key{}` when the stored value is a
`*zap.Logger`, otherwise a freshly built default logger over `&logLevel`, with
the registered hooks installed when there are any. -/
def from' (st : State) (ctx : Context) : Except Panic zap.LoggerPtr :=
  match ctx.Value Key.key with
  | some (Any.logger l) => Except.ok l
  | _ =>
    let l := zap.New
      (NewCore
        { TimeKey := "@timestamp",
          LevelKey := "level",
          NameKey := "logger",
          CallerKey := "caller",
          MessageKey := "msg",
          StacktraceKey := "stacktrace",
          LineEnding := DefaultLineEnding,
          EncodeLevel := "LowercaseLevelEncoder",
          EncodeTime := "ISO8601TimeEncoder",
          EncodeDuration := "NanosDurationEncoder",
          EncodeCaller := "ShortCallerEncoder" }
        Sink.stdout
        LevelEnabler.logLevel)
      [zap.LoggerOption.AddCaller,
       zap.LoggerOption.AddCallerSkip 1,
       zap.LoggerOption.AddStacktrace (LevelEnabler.level DPanicLevel)]
    if st.hooks.length > 0 then
      zap.Logger.WithOptions l [zap.LoggerOption.Hooks st.hooks]
    else
      Except.ok l

/-- Source function `From(ctx)`, the exported name of `from`. -/
def From (st : State) (ctx : Context) : Except Panic zap.LoggerPtr :=
  from' st ctx

/-- Source function `With(ctx, logger)`: binds the logger under `key{}`. -/
def With (ctx : Context) (logger : zap.LoggerPtr) : Context :=
  Context.WithValue ctx Key.key (Any.logger logger)

/-- Source function `WithFields(ctx, fields...)`: the context itself when no
field is given, otherwise the context with the resolved logger enriched by the
fields bound to it. -/
def WithFields (st : State) (ctx : Context) (fields : List Field) : Except Panic Context :=
  if fields.length = 0 then
    Except.ok ctx
  else
    (from' st ctx >>= fun l => zap.Logger.With l fields) >>= fun l => Except.ok (With ctx l)

/-- Source function `WithTraceID(ctx, traceID)`. -/
def WithTraceID (st : State) (ctx : Context) (traceID : String) : Except Panic Context :=
  WithFields st ctx [zap.String "trace_id" traceID]

/-- Source function `Error(ctx, msg, fields...)`. -/
def Error (st : State) (ctx : Context) (msg : String) (fields : List Field) :
    Except Panic (List Event) :=
  from' st ctx >>= fun l => zap.Logger.Error st.logLevel l msg fields

/-- Source function `Info(ctx, msg, fields...)`. -/
def Info (st : State) (ctx : Context) (msg : String) (fields : List Field) :
    Except Panic (List Event) :=
  from' st ctx >>= fun l => zap.Logger.Info st.logLevel l msg fields

/-- Source function `Debug(ctx, msg, fields...)`. -/
def Debug (st : State) (ctx : Context) (msg : String) (fields : List Field) :
    Except Panic (List Event) :=
  from' st ctx >>= fun l => zap.Logger.Debug st.logLevel l msg fields

/-- Source function `Warn(ctx, msg, fields...)`. -/
def Warn (st : State) (ctx : Context) (msg : String) (fields : List Field) :
    Except Panic (List Event) :=
  from' st ctx >>= fun l => zap.Logger.Warn st.logLevel l msg fields

/-- Source function `Fatal(ctx, msg, fields...)`. -/
def Fatal (st : State) (ctx : Context) (msg : String) (fields : List Field) :
    Except Panic (List Event) :=
  from' st ctx >>= fun l => zap.Logger.Fatal st.logLevel l msg fields

/-- The five severities that have a shorthand emitter. -/
inductive Severity where
  | debug
  | info
  | warn
  | error
  | fatal
deriving DecidableEq, Repr

/-- The zap level of a severity. -/
def Severity.level : Severity → Level
  | Severity.debug => DebugLevel
  | Severity.info => InfoLevel
  | Severity.warn => WarnLevel
  | Severity.error => ErrorLevel
  | Severity.fatal => FatalLevel

/-- The shorthand emitter of a severity. -/
def emit (sev : Severity) (st : State) (ctx : Context) (msg : String) (fields : List Field) :
    Except Panic (List Event) :=
  match sev with
  | Severity.debug => Debug st ctx msg fields
  | Severity.info => Info st ctx msg fields
  | Severity.warn => Warn st ctx msg fields
  | Severity.error => Error st ctx msg fields
  | Severity.fatal => Fatal st ctx msg fields

/-- The hook invocations among the events, in order: which function, with which
entry. -/
def hookCalls (evs : List Event) : List (Nat × Entry) :=
  evs.filterMap fun ev =>
    match ev with
    | Event.hook h ent => some (h, ent)
    | _ => none

/-- How many times the hook function `h` was invoked with an entry of level
`lvl`. -/
def seen (h : Nat) (lvl : Level) (evs : List Event) : Nat :=
  ((hookCalls evs).filter fun c => decide (c.1 = h) && decide (c.2.Level = lvl)).length

/-- The registrations in a hook list, in order: the identity of each registered
function (nil entries have none). -/
def registrations (hooks : List HookFunc) : List Nat :=
  hooks.filterMap fun h => h.map Closure.id

/-- A hook list is well behaved when every entry is a non-nil function that
returns, with nil or with an error, on every entry it is called with. -/
def wellBehaved (hooks : List HookFunc) : Prop :=
  ∀ h ∈ hooks, ∃ f : Closure, h = some f ∧ ∀ ent m, f.run ent ≠ HookOutcome.panic m

/-- The entry an event carries: the record written to a sink or handed to a
hook. -/
def entryOf : Event → Option Entry
  | Event.write _ ent _ => some ent
  | Event.hook _ ent => some ent
  | _ => none

/-- One derivation step on a context: `With`, `WithFields` or `WithTraceID`,
the last two in the package state of the moment of the call. -/
inductive Op where
  | With (logger : zap.LoggerPtr)
  | WithFields (st : State) (fields : List Field)
  | WithTraceID (st : State) (id : String)

/-- Performs one derivation step. -/
def Op.run (ctx : Context) : Op → Except Panic Context
  | Op.With logger => Except.ok (zapctx.With ctx logger)
  | Op.WithFields st fields => zapctx.WithFields st ctx fields
  | Op.WithTraceID st id => zapctx.WithTraceID st ctx id

/-- Performs the derivation steps from left to right; a panic stops the run. -/
def runOps : Context → List Op → Except Panic Context
  | ctx, [] => Except.ok ctx
  | ctx, op :: ops =>
    match op.run ctx with
    | Except.error e => Except.error e
    | Except.ok ctx' => runOps ctx' ops

/-- A step passes no nil logger to `With`. -/
def Op.nonNil : Op → Bool
  | Op.With logger => logger.isSome
  | _ => true

end zapctx

namespace zapctx

open zapcore context

/-! ## Resolution -/

/-- The default logger `from` builds in state `st`: the io core over `&logLevel`
writing to standard output, wrapped in the hooked core when hooks are
registered, with caller capture, one extra skipped frame and stack traces from
dpanic on. -/
theorem from_default (st : State) (ctx : Context)
    (h : ∀ l, ctx.Value Key.key ≠ some (Any.logger l)) :
    from' st ctx = Except.ok (some
      { core :=
          if st.hooks = [] then
            Core.ioCore LevelEnabler.logLevel
              { TimeKey := "@timestamp", LevelKey := "level", NameKey := "logger",
                CallerKey := "caller", MessageKey := "msg", StacktraceKey := "stacktrace",
                LineEnding := "\n", EncodeLevel := "LowercaseLevelEncoder",
                EncodeTime := "ISO8601TimeEncoder", EncodeDuration := "NanosDurationEncoder",
                EncodeCaller := "ShortCallerEncoder" }
              Sink.stdout []
          else
            Core.hooked
              (Core.ioCore LevelEnabler.logLevel
                { TimeKey := "@timestamp", LevelKey := "level", NameKey := "logger",
                  CallerKey := "caller", MessageKey := "msg", StacktraceKey := "stacktrace",
                  LineEnding := "\n", EncodeLevel := "LowercaseLevelEncoder",
                  EncodeTime := "ISO8601TimeEncoder", EncodeDuration := "NanosDurationEncoder",
                  EncodeCaller := "ShortCallerEncoder" }
                Sink.stdout [])
              st.hooks,
        development := false,
        addCaller := true,
        name := "",
        errorOutput := Sink.stderr,
        addStack := LevelEnabler.level DPanicLevel,
        callerSkip := 1 }) := by
  unfold from'
  split
  · next l heq => exact absurd heq (h l)
  · cases hk : st.hooks with
    | nil =>
      simp [zap.New, NewCore, zap.LoggerOption.apply, DefaultLineEnding]
    | cons a t =>
      simp [zap.New, NewCore, zap.LoggerOption.apply, DefaultLineEnding, zap.Logger.WithOptions,
        zap.Logger.clone, RegisterHooks]

theorem from_bound (st : State) (ctx : Context) (l : zap.LoggerPtr)
    (h : ctx.Value Key.key = some (Any.logger l)) : from' st ctx = Except.ok l := by
  unfold from'
  simp [h]

theorem value_With (ctx : Context) (L : zap.LoggerPtr) :
    (With ctx L).Value Key.key = some (Any.logger L) := by
  simp [With, Context.Value]

/-- Binding a logger derives a new context, different from the one it was
derived from. -/
theorem With_ne_self (ctx : Context) (l : zap.LoggerPtr) : With ctx l ≠ ctx := by
  intro h
  have hs := congrArg sizeOf h
  simp [With] at hs
  omega

theorem resolve_bound_With (st : State) (ctx : Context) (L : zap.LoggerPtr) :
    from' st (With ctx L) = Except.ok L :=
  from_bound st (With ctx L) L (value_With ctx L)

/-- Resolving after `WithFields` over a bound logger `L` with at least one field
gives `L.With(fields...)`. -/
theorem withFields_resolve (st st' : State) (ctx : Context) (L : zap.LoggerPtr)
    (fs : List Field) (h : fs ≠ []) :
    (WithFields st (With ctx L) fs >>= fun c => From st' c) = zap.Logger.With L fs := by
  have hlen : ¬ fs.length = 0 := by
    intro hc
    exact h (List.length_eq_zero.mp hc)
  cases L with
  | none =>
    simp [WithFields, hlen, resolve_bound_With, zap.Logger.With, zap.Logger.clone, bind, Except.bind]
  | some l =>
    simp only [WithFields, hlen, resolve_bound_With, zap.Logger.With, zap.Logger.clone, bind, Except.bind,
      if_false]
    exact resolve_bound_With st' ctx _

/-- Resolution never panics. -/
theorem from_total (st : State) (ctx : Context) : ∃ p, from' st ctx = Except.ok p := by
  cases hv : ctx.Value Key.key with
  | none =>
    exact ⟨_, from_default st ctx (by rw [hv]; intro l hc; cases hc)⟩
  | some a =>
    cases a with
    | logger l => exact ⟨l, from_bound st ctx l hv⟩
    | foreign n =>
      exact ⟨_, from_default st ctx (by rw [hv]; intro l hc; cases hc)⟩

/-- Resolution yields the nil pointer exactly when the nearest binding under the
package key is a nil logger pointer. -/
theorem from_nil_iff (st : State) (ctx : Context) :
    from' st ctx = Except.ok none ↔ ctx.Value Key.key = some (Any.logger none) := by
  constructor
  · intro h
    cases hv : ctx.Value Key.key with
    | none =>
      rw [from_default st ctx (by rw [hv]; intro l hc; cases hc)] at h
      cases h
    | some a =>
      cases a with
      | logger l =>
        rw [from_bound st ctx l hv] at h
        cases h
        rfl
      | foreign n =>
        rw [from_default st ctx (by rw [hv]; intro l hc; cases hc)] at h
        cases h
  · intro h
    exact from_bound st ctx none h

/-! ## Emission -/

theorem check_entry_of (cur : Level) (c : Core) (ent : Entry) :
    ∀ (ce0 r : Option CheckedEntry), Core.Check cur c ent ce0 = r →
      ∀ x, r = some x →
        (ce0 = none → x.Entry = ent) ∧ (∀ y, ce0 = some y → x.Entry = y.Entry) := by
  induction c with
  | nop =>
    intro ce0 r hr x hx
    simp only [Core.Check] at hr
    subst hr
    subst hx
    exact ⟨fun hc => (nomatch hc), fun y hy => (by cases hy; rfl)⟩
  | ioCore enab enc out fs =>
    intro ce0 r hr x hx
    simp only [Core.Check] at hr
    split at hr
    · subst hr
      cases ce0 with
      | none =>
        simp only [CheckedEntry.AddCore, Option.some.injEq] at hx
        subst hx
        exact ⟨fun _ => rfl, fun y hy => (nomatch hy)⟩
      | some y0 =>
        simp only [CheckedEntry.AddCore, Option.some.injEq] at hx
        subst hx
        exact ⟨fun hc => (nomatch hc), fun y hy => (by cases hy; rfl)⟩
    · subst hr
      subst hx
      exact ⟨fun hc => (nomatch hc), fun y hy => (by cases hy; rfl)⟩
  | hooked inner funcs ih =>
    intro ce0 r hr x hx
    simp only [Core.Check] at hr
    split at hr
    · next downstream hd =>
      have hin := ih ce0 _ hd downstream rfl
      subst hr
      simp only [CheckedEntry.AddCore, Option.some.injEq] at hx
      subst hx
      exact ⟨fun hc => hin.1 hc, fun y hy => hin.2 y hy⟩
    · subst hr
      subst hx
      exact ⟨fun hc => (nomatch hc), fun y hy => (by cases hy; rfl)⟩

theorem should_entry (ce : Option CheckedEntry) (ent : Entry) (a : CheckWriteAction)
    (hce : ∀ x, ce = some x → x.Entry = ent) :
    ∀ x, CheckedEntry.Should ce ent a = some x → x.Entry = ent := by
  intro x hx
  cases ce with
  | none =>
    simp only [CheckedEntry.Should, Option.some.injEq] at hx
    subst hx
    rfl
  | some y =>
    simp only [CheckedEntry.Should, Option.some.injEq] at hx
    subst hx
    exact hce y rfl

/-- The checked entry `check` returns is for the level and message of the call. -/
theorem check_level_message (cur : Level) (l : zap.Logger) (lvl : Level) (msg : String)
    (x : CheckedEntry) (h : zap.Logger.check cur l lvl msg = some x) :
    x.Entry.Level = lvl ∧ x.Entry.Message = msg := by
  unfold zap.Logger.check at h
  split at h
  · cases h
  · have hbase : ∀ y, Core.Check cur l.core
        { Level := lvl, LoggerName := l.name, Message := msg, Caller := none, Stack := false }
        none = some y →
        y.Entry = { Level := lvl, LoggerName := l.name, Message := msg, Caller := none,
                    Stack := false } := by
      intro y hy
      exact (check_entry_of cur l.core _ none _ rfl y hy).1 rfl
    have hsh : ∀ a y, CheckedEntry.Should (Core.Check cur l.core
        { Level := lvl, LoggerName := l.name, Message := msg, Caller := none, Stack := false }
        none) { Level := lvl, LoggerName := l.name, Message := msg, Caller := none,
                Stack := false } a = some y →
        y.Entry = { Level := lvl, LoggerName := l.name, Message := msg, Caller := none,
                    Stack := false } :=
      fun a y hy => should_entry _ _ a hbase y hy
    have key : ∀ y,
        (if lvl = PanicLevel then
          CheckedEntry.Should (Core.Check cur l.core
            { Level := lvl, LoggerName := l.name, Message := msg, Caller := none,
              Stack := false } none)
            { Level := lvl, LoggerName := l.name, Message := msg, Caller := none,
              Stack := false } CheckWriteAction.WriteThenPanic
        else if lvl = FatalLevel then
          CheckedEntry.Should (Core.Check cur l.core
            { Level := lvl, LoggerName := l.name, Message := msg, Caller := none,
              Stack := false } none)
            { Level := lvl, LoggerName := l.name, Message := msg, Caller := none,
              Stack := false } CheckWriteAction.WriteThenFatal
        else if lvl = DPanicLevel then
          (if l.development = true then
            CheckedEntry.Should (Core.Check cur l.core
              { Level := lvl, LoggerName := l.name, Message := msg, Caller := none,
                Stack := false } none)
              { Level := lvl, LoggerName := l.name, Message := msg, Caller := none,
                Stack := false } CheckWriteAction.WriteThenPanic
          else Core.Check cur l.core
            { Level := lvl, LoggerName := l.name, Message := msg, Caller := none,
              Stack := false } none)
        else Core.Check cur l.core
          { Level := lvl, LoggerName := l.name, Message := msg, Caller := none,
            Stack := false } none) = some y →
        y.Entry = { Level := lvl, LoggerName := l.name, Message := msg, Caller := none,
                    Stack := false } := by
      intro y hy
      split at hy
      · exact hsh _ y hy
      · split at hy
        · exact hsh _ y hy
        · split at hy
          · split at hy
            · exact hsh _ y hy
            · exact hbase y hy
          · exact hbase y hy
    simp only at h
    split at h
    · have := key x h
      rw [this]
      exact ⟨rfl, rfl⟩
    · rw [Option.map_eq_some'] at h
      obtain ⟨y, hy, hxy⟩ := h
      have := key y hy
      subst hxy
      simp only
      rw [this]
      exact ⟨rfl, rfl⟩

theorem callHooks_carries (ent : Entry) (fields : List Field) (funcs : List HookFunc) :
    ∀ ev ∈ (callHooks ent funcs).events,
      (∀ out e fs, ev = Event.write out e fs → e = ent ∧ ∃ pre, fs = pre ++ fields) ∧
      (∀ id e, ev = Event.hook id e → e = ent) := by
  induction funcs with
  | nil =>
    intro ev hev
    simp [callHooks] at hev
  | cons h t ih =>
    intro ev hev
    cases h with
    | none =>
      simp only [callHooks, List.mem_singleton] at hev
      subst hev
      exact ⟨fun _ _ _ heq => (nomatch heq), fun _ _ heq => (nomatch heq)⟩
    | some f =>
      have hhook : ∀ ev, ev = Event.hook f.id ent →
          (∀ out e fs, ev = Event.write out e fs → e = ent ∧ ∃ pre, fs = pre ++ fields) ∧
          (∀ id e, ev = Event.hook id e → e = ent) := by
        intro ev hev
        subst hev
        refine ⟨fun _ _ _ heq => (nomatch heq), ?_⟩
        intro id e heq
        cases heq
        rfl
      simp only [callHooks] at hev
      cases hr : f.run ent with
      | ok =>
        rw [hr] at hev
        simp only [List.mem_cons] at hev
        rcases hev with h1 | h2
        · exact hhook ev h1
        · exact ih ev h2
      | error m =>
        rw [hr] at hev
        simp only [List.mem_cons] at hev
        rcases hev with h1 | h2
        · exact hhook ev h1
        · exact ih ev h2
      | panic m =>
        rw [hr] at hev
        simp only [List.mem_cons, List.mem_singleton] at hev
        rcases hev with h1 | h2 | h3
        · exact hhook ev h1
        · subst h2
          exact ⟨fun _ _ _ heq => (nomatch heq), fun _ _ heq => (nomatch heq)⟩
        · cases h3

theorem coreWrite_carries (core : Core) (ent : Entry) (fields : List Field) :
    ∀ ev ∈ (core.Write ent fields).events,
      (∀ out e fs, ev = Event.write out e fs → e = ent ∧ ∃ pre, fs = pre ++ fields) ∧
      (∀ id e, ev = Event.hook id e → e = ent) := by
  intro ev hmem
  cases core with
  | nop => simp [Core.Write] at hmem
  | ioCore enab enc out fs0 =>
    simp only [Core.Write, List.mem_cons] at hmem
    rcases hmem with h1 | h2
    · subst h1
      refine ⟨?_, ?_⟩
      · intro out' e fs heq
        cases heq
        exact ⟨rfl, fs0, rfl⟩
      · intro h e heq
        cases heq
    · split at h2
      · simp only [List.mem_singleton] at h2
        subst h2
        exact ⟨fun _ _ _ heq => (nomatch heq), fun _ _ heq => (nomatch heq)⟩
      · cases h2
  | hooked inner funcs =>
    simp only [Core.Write] at hmem
    exact callHooks_carries ent fields funcs ev hmem

theorem writeCores_carries (ent : Entry) (fields : List Field) (cores : List Core) :
    ∀ ev ∈ (writeCores ent fields cores).events,
      (∀ out e fs, ev = Event.write out e fs → e = ent ∧ ∃ pre, fs = pre ++ fields) ∧
      (∀ id e, ev = Event.hook id e → e = ent) := by
  induction cores with
  | nil =>
    intro ev hev
    simp [writeCores] at hev
  | cons core t ih =>
    intro ev hev
    simp only [writeCores] at hev
    split at hev
    · exact coreWrite_carries core ent fields ev hev
    · simp only [List.mem_append] at hev
      rcases hev with h1 | h2
      · exact coreWrite_carries core ent fields ev h1
      · exact ih ev h2

/-- Every record written and every hook call of a checked entry carries that
entry; a written record ends with the fields of the call. -/
theorem write_events (c : CheckedEntry) (fields : List Field) (ev : Event)
    (hev : ev ∈ CheckedEntry.Write (some c) fields) :
    (∀ out ent fs, ev = Event.write out ent fs → ent = c.Entry ∧ ∃ pre, fs = pre ++ fields) ∧
    (∀ h ent, ev = Event.hook h ent → ent = c.Entry) := by
  simp only [CheckedEntry.Write] at hev
  split at hev
  · exact writeCores_carries c.Entry fields c.cores ev hev
  · simp only [List.mem_append] at hev
    rcases hev with (hcore | herr) | hterm
    · exact writeCores_carries c.Entry fields c.cores ev hcore
    · split at herr
      · cases herr
      · cases herr
      · simp only [List.mem_cons, List.mem_singleton] at herr
        rcases herr with h1 | h2 | h3
        · subst h1
          exact ⟨fun _ _ _ heq => (nomatch heq), fun _ _ heq => (nomatch heq)⟩
        · subst h2
          exact ⟨fun _ _ _ heq => (nomatch heq), fun _ _ heq => (nomatch heq)⟩
        · cases h3
    · cases hs : c.should <;> rw [hs] at hterm <;> simp only [List.mem_singleton] at hterm
      · cases hterm
      · subst hterm
        exact ⟨fun _ _ _ heq => (nomatch heq), fun _ _ heq => (nomatch heq)⟩
      · subst hterm
        exact ⟨fun _ _ _ heq => (nomatch heq), fun _ _ heq => (nomatch heq)⟩

/-- Whatever the logger, every record written and every hook call made by a
level method carries the level and the message of the call, and a written
record ends with the fields of the call. -/
theorem log_events (cur : Level) (p : zap.LoggerPtr) (lvl : Level) (msg : String)
    (fields : List Field) (evs : List Event)
    (h : zap.Logger.log cur p lvl msg fields = Except.ok evs) (ev : Event) (hev : ev ∈ evs) :
    (∀ out ent fs, ev = Event.write out ent fs →
      ent.Level = lvl ∧ ent.Message = msg ∧ ∃ pre, fs = pre ++ fields) ∧
    (∀ hk ent, ev = Event.hook hk ent → ent.Level = lvl ∧ ent.Message = msg) := by
  cases p with
  | none => cases h
  | some l =>
    simp only [zap.Logger.log, Except.ok.injEq] at h
    subst h
    cases hc : zap.Logger.check cur l lvl msg with
    | none =>
      rw [hc] at hev
      simp [CheckedEntry.Write] at hev
    | some c =>
      rw [hc] at hev
      have hw := write_events c fields ev hev
      have hlm := check_level_message cur l lvl msg c hc
      refine ⟨?_, ?_⟩
      · intro out ent fs heq
        obtain ⟨he, hpre⟩ := hw.1 out ent fs heq
        subst he
        exact ⟨hlm.1, hlm.2, hpre⟩
      · intro hk ent heq
        have he := hw.2 hk ent heq
        subst he
        exact hlm

/-- What a level method of the default logger does when the level passes the
threshold: one record on standard output (synced above error level), then the
calls of the registered hooks in registration order; unless a hook call
panicked, the errors the hooks returned are reported on standard error and the
terminal action of the level is taken. -/
theorem log_default (st : State) (ctx : Context)
    (hctx : ∀ l, ctx.Value Key.key ≠ some (Any.logger l))
    (lvl : Level) (msg : String) (fields : List Field) (hpass : st.logLevel ≤ lvl) :
    (from' st ctx >>= fun l => zap.Logger.log st.logLevel l lvl msg fields)
      = Except.ok
          (if (callHooks
                { Level := lvl, LoggerName := "", Message := msg, Caller := some 3,
                  Stack := decide (DPanicLevel ≤ lvl) } st.hooks).panicked = true then
            Event.write Sink.stdout
              { Level := lvl, LoggerName := "", Message := msg, Caller := some 3,
                Stack := decide (DPanicLevel ≤ lvl) } fields ::
            (if ErrorLevel < lvl then [Event.sync Sink.stdout] else []) ++
            (callHooks
              { Level := lvl, LoggerName := "", Message := msg, Caller := some 3,
                Stack := decide (DPanicLevel ≤ lvl) } st.hooks).events
          else
            Event.write Sink.stdout
              { Level := lvl, LoggerName := "", Message := msg, Caller := some 3,
                Stack := decide (DPanicLevel ≤ lvl) } fields ::
            (if ErrorLevel < lvl then [Event.sync Sink.stdout] else []) ++
            (callHooks
              { Level := lvl, LoggerName := "", Message := msg, Caller := some 3,
                Stack := decide (DPanicLevel ≤ lvl) } st.hooks).events ++
            (match (callHooks
              { Level := lvl, LoggerName := "", Message := msg, Caller := some 3,
                Stack := decide (DPanicLevel ≤ lvl) } st.hooks).errs with
             | [] => []
             | e :: es => [Event.errorOutput Sink.stderr (e :: es), Event.sync Sink.stderr]) ++
            (if lvl = PanicLevel then [Event.panic msg]
             else if lvl = FatalLevel then [Event.exit] else [])) := by
  rw [from_default st ctx hctx]
  simp only [bind, Except.bind, zap.Logger.log, Except.ok.injEq]
  by_cases h1 : lvl = PanicLevel
  · subst h1
    have hp : st.logLevel ≤ 4 := hpass
    cases hk : st.hooks with
    | nil =>
      simp [zap.Logger.check, Core.Enabled, LevelEnabler.Enabled, hp, Core.Check,
        CheckedEntry.AddCore, CheckedEntry.Should, CheckedEntry.Write, Core.Write, writeCores,
        callHooks, PanicLevel, DPanicLevel, ErrorLevel, FatalLevel]
    | cons a t =>
      simp [zap.Logger.check, Core.Enabled, LevelEnabler.Enabled, hp, Core.Check,
        CheckedEntry.AddCore, CheckedEntry.Should, CheckedEntry.Write, Core.Write, writeCores,
        PanicLevel, DPanicLevel, ErrorLevel, FatalLevel]
      generalize callHooks _ (a :: t) = r
      obtain ⟨evs, errs, p⟩ := r
      cases p <;> cases errs <;> simp
  · by_cases h2 : lvl = FatalLevel
    · subst h2
      have hp : st.logLevel ≤ 5 := hpass
      cases hk : st.hooks with
      | nil =>
        simp [zap.Logger.check, Core.Enabled, LevelEnabler.Enabled, hp, Core.Check,
          CheckedEntry.AddCore, CheckedEntry.Should, CheckedEntry.Write, Core.Write, writeCores,
          callHooks, PanicLevel, DPanicLevel, ErrorLevel, FatalLevel]
      | cons a t =>
        simp [zap.Logger.check, Core.Enabled, LevelEnabler.Enabled, hp, Core.Check,
          CheckedEntry.AddCore, CheckedEntry.Should, CheckedEntry.Write, Core.Write, writeCores,
          PanicLevel, DPanicLevel, ErrorLevel, FatalLevel]
        generalize callHooks _ (a :: t) = r
        obtain ⟨evs, errs, p⟩ := r
        cases p <;> cases errs <;> simp
    · cases hk : st.hooks with
      | nil =>
        simp [zap.Logger.check, Core.Enabled, LevelEnabler.Enabled, hpass, Core.Check,
          CheckedEntry.AddCore, CheckedEntry.Should, CheckedEntry.Write, Core.Write, writeCores,
          callHooks, h1, h2]
      | cons a t =>
        simp [zap.Logger.check, Core.Enabled, LevelEnabler.Enabled, hpass, Core.Check,
          CheckedEntry.AddCore, CheckedEntry.Should, CheckedEntry.Write, Core.Write, writeCores,
          h1, h2]
        generalize callHooks _ (a :: t) = r
        obtain ⟨evs, errs, p⟩ := r
        cases p <;> cases errs <;> simp

/-! ## Package state -/

theorem addHooks_eq (hks : List Hook) :
    ∀ st : State, AddHooks st hks = { logLevel := st.logLevel, hooks := st.hooks ++ hks } := by
  induction hks with
  | nil =>
    intro st
    simp [AddHooks]
  | cons h t ih =>
    intro st
    have hstep : AddHooks st (h :: t) = AddHooks { st with hooks := st.hooks ++ [h] } t := rfl
    rw [hstep, ih]
    simp

theorem addHooks_calls (calls : List (List Hook)) :
    ∀ st : State, calls.foldl AddHooks st
      = { logLevel := st.logLevel, hooks := st.hooks ++ calls.flatten } := by
  induction calls with
  | nil =>
    intro st
    simp
  | cons c t ih =>
    intro st
    rw [List.foldl_cons, ih, addHooks_eq]
    simp

theorem hookCalls_append (a b : List Event) : hookCalls (a ++ b) = hookCalls a ++ hookCalls b := by
  simp [hookCalls, List.filterMap_append]

theorem hookCalls_cons_hook (id : Nat) (ent : Entry) (evs : List Event) :
    hookCalls (Event.hook id ent :: evs) = (id, ent) :: hookCalls evs := by
  simp [hookCalls, List.filterMap_cons]

theorem wellBehaved_tail (h : HookFunc) (t : List HookFunc) (hw : wellBehaved (h :: t)) :
    wellBehaved t :=
  fun x hx => hw x (List.mem_cons_of_mem h hx)

/-- On a well-behaved hook list the loop of the hooked core runs to the end and
calls every registered function once, in registration order, with the entry. -/
theorem callHooks_well (ent : Entry) (hooks : List HookFunc) (hw : wellBehaved hooks) :
    (callHooks ent hooks).panicked = false ∧
    hookCalls (callHooks ent hooks).events = (registrations hooks).map (fun h => (h, ent)) ∧
    (registrations hooks).length = hooks.length := by
  induction hooks with
  | nil => exact ⟨rfl, rfl, rfl⟩
  | cons h t ih =>
    obtain ⟨hp, hc, hl⟩ := ih (wellBehaved_tail h t hw)
    obtain ⟨f, hf, hrun⟩ := hw h (List.mem_cons_self h t)
    subst hf
    have hreg : registrations (some f :: t) = f.id :: registrations t := by
      simp [registrations]
    cases hr : f.run ent with
    | ok =>
      simp only [callHooks, hr, hookCalls_cons_hook, hreg, List.map_cons, List.length_cons]
      exact ⟨hp, by rw [hc], by rw [hl]⟩
    | error m =>
      simp only [callHooks, hr, hookCalls_cons_hook, hreg, List.map_cons, List.length_cons]
      exact ⟨hp, by rw [hc], by rw [hl]⟩
    | panic m => exact absurd hr (hrun ent m)

/-- The hook invocations of a passing entry on the default logger, when the
registered hooks are well behaved: each registration, once, in registration
order, with the entry. -/
theorem hookCalls_default (st : State) (ctx : Context)
    (hctx : ∀ l, ctx.Value Key.key ≠ some (Any.logger l))
    (lvl : Level) (msg : String) (fields : List Field) (hpass : st.logLevel ≤ lvl)
    (hw : wellBehaved st.hooks) :
    ∃ evs, (from' st ctx >>= fun l => zap.Logger.log st.logLevel l lvl msg fields)
        = Except.ok evs ∧
      hookCalls evs = (registrations st.hooks).map fun h =>
        (h, { Level := lvl, LoggerName := "", Message := msg, Caller := some 3,
              Stack := decide (DPanicLevel ≤ lvl) }) := by
  refine ⟨_, log_default st ctx hctx lvl msg fields hpass, ?_⟩
  obtain ⟨hp, hc, _⟩ := callHooks_well
    { Level := lvl, LoggerName := "", Message := msg, Caller := some 3,
      Stack := decide (DPanicLevel ≤ lvl) } st.hooks hw
  rw [hp]
  simp only [Bool.false_eq_true, if_false]
  rw [← List.singleton_append, hookCalls_append, hookCalls_append, hookCalls_append,
    hookCalls_append, hc]
  have h1 : hookCalls [Event.write Sink.stdout
      { Level := lvl, LoggerName := "", Message := msg, Caller := some 3,
        Stack := decide (DPanicLevel ≤ lvl) } fields] = [] := rfl
  have h2 : hookCalls (if ErrorLevel < lvl then [Event.sync Sink.stdout] else []) = [] := by
    split <;> rfl
  have h3 : hookCalls (if lvl = PanicLevel then [Event.panic msg]
      else if lvl = FatalLevel then [Event.exit] else []) = [] := by
    split
    · rfl
    · split <;> rfl
  have h4 : hookCalls (match (callHooks
      { Level := lvl, LoggerName := "", Message := msg, Caller := some 3,
        Stack := decide (DPanicLevel ≤ lvl) } st.hooks).errs with
      | [] => []
      | e :: es => [Event.errorOutput Sink.stderr (e :: es), Event.sync Sink.stderr]) = [] := by
    split <;> rfl
  rw [h1, h2, h3, h4]
  simp

theorem emit_eq (sev : Severity) (st : State) (ctx : Context) (msg : String)
    (fields : List Field) :
    emit sev st ctx msg fields
      = (from' st ctx >>= fun l => zap.Logger.log st.logLevel l sev.level msg fields) := by
  cases sev <;> rfl

theorem seen_eq (h : Nat) (lvl : Level) (ent : Entry) (ids : List Nat) (evs : List Event)
    (hc : hookCalls evs = ids.map fun k => (k, ent)) :
    seen h lvl evs = if ent.Level = lvl then ids.count h else 0 := by
  unfold seen
  rw [hc]
  clear hc
  induction ids with
  | nil => simp
  | cons k t ih =>
    simp only [List.map_cons, List.filter_cons, List.count_cons]
    by_cases hl : ent.Level = lvl
    · by_cases hk : k = h
      · simp [hl, hk] at ih ⊢
        exact ih
      · have hk' : ¬ (k == h) = true := by simpa using hk
        simp [hl, hk, hk'] at ih ⊢
        exact ih
    · simp [hl]

theorem seen_append (h : Nat) (lvl : Level) (a b : List Event) :
    seen h lvl (a ++ b) = seen h lvl a + seen h lvl b := by
  simp [seen, hookCalls_append]

theorem mem_registrations (f : Closure) (hooks : List HookFunc) (hf : some f ∈ hooks) :
    f.id ∈ registrations hooks := by
  simp only [registrations, List.mem_filterMap]
  exact ⟨some f, hf, rfl⟩

/-! ## Derivation -/

theorem op_preserves (ctx : Context) (op : Op)
    (hgood : ∀ st, ∃ l : zap.Logger, from' st ctx = Except.ok (some l))
    (hop : op.nonNil = true) :
    ∃ ctx', op.run ctx = Except.ok ctx' ∧
      ∀ st, ∃ l : zap.Logger, from' st ctx' = Except.ok (some l) := by
  have hfields : ∀ (st : State) (fields : List Field),
      ∃ ctx', WithFields st ctx fields = Except.ok ctx' ∧
        ∀ st', ∃ l : zap.Logger, from' st' ctx' = Except.ok (some l) := by
    intro st fields
    by_cases hlen : fields.length = 0
    · exact ⟨ctx, by simp [WithFields, hlen], hgood⟩
    · obtain ⟨l, hl⟩ := hgood st
      refine ⟨With ctx (some { l with core := l.core.With fields }), ?_, ?_⟩
      · simp [WithFields, hlen, hl, zap.Logger.With, zap.Logger.clone, bind, Except.bind]
      · intro st'
        exact ⟨_, resolve_bound_With st' ctx _⟩
  cases op with
  | With logger =>
    cases logger with
    | none => simp [Op.nonNil] at hop
    | some l =>
      exact ⟨With ctx (some l), rfl, fun st => ⟨l, resolve_bound_With st ctx (some l)⟩⟩
  | WithFields st fields => exact hfields st fields
  | WithTraceID st id => exact hfields st [zap.String "trace_id" id]

theorem runOps_preserves (ops : List Op) :
    ∀ ctx : Context, (∀ st, ∃ l : zap.Logger, from' st ctx = Except.ok (some l)) →
      ops.all Op.nonNil = true →
      ∃ ctx', runOps ctx ops = Except.ok ctx' ∧
        ∀ st, ∃ l : zap.Logger, from' st ctx' = Except.ok (some l) := by
  induction ops with
  | nil =>
    intro ctx hgood _
    exact ⟨ctx, rfl, hgood⟩
  | cons op t ih =>
    intro ctx hgood hall
    simp only [List.all_cons, Bool.and_eq_true] at hall
    obtain ⟨ctx1, hrun, hgood1⟩ := op_preserves ctx op hgood hall.1
    obtain ⟨ctx2, hrun2, hgood2⟩ := ih ctx1 hgood1 hall.2
    refine ⟨ctx2, ?_, hgood2⟩
    simp only [runOps, hrun]
    exact hrun2

/-- The entry carried by any event of a shorthand emitter has the emitter's
level and the message of the call. -/
theorem emit_entry (sev : Severity) (st : State) (ctx : Context) (msg : String)
    (fields : List Field) (evs : List Event) (ev : Event) (ent : Entry)
    (h : emit sev st ctx msg fields = Except.ok evs) (hev : ev ∈ evs)
    (hent : entryOf ev = some ent) :
    ent.Level = sev.level ∧ ent.Message = msg := by
  rw [emit_eq] at h
  obtain ⟨p, hp⟩ := from_total st ctx
  rw [hp] at h
  have hl := log_events st.logLevel p sev.level msg fields evs h ev hev
  cases ev with
  | write out ent0 fs =>
    simp only [entryOf, Option.some.injEq] at hent
    subst hent
    have := hl.1 out ent0 fs rfl
    exact ⟨this.1, this.2.1⟩
  | hook hk ent0 =>
    simp only [entryOf, Option.some.injEq] at hent
    subst hent
    exact hl.2 hk ent0 rfl
  | sync out => cases hent
  | errorOutput out errs => cases hent
  | panic m => cases hent
  | exit => cases hent

/-- A shorthand emitter returns (does not panic) when the context resolves to a
non-nil logger. -/
theorem emit_returns (sev : Severity) (st : State) (ctx : Context) (msg : String)
    (fields : List Field) (l : zap.Logger) (h : from' st ctx = Except.ok (some l)) :
    ∃ evs, emit sev st ctx msg fields = Except.ok evs := by
  rw [emit_eq, h]
  exact ⟨_, rfl⟩

/-! ## The claims -/

/-- C1: for every context and every logger pointer `L` (nil included), whatever
the context carried before and whatever the package state, `From(With(ctx, L))`
returns `L` itself. -/
theorem From_With (st : State) (ctx : Context) (L : zap.LoggerPtr) :
    From st (With ctx L) = Except.ok L :=
  resolve_bound_With st ctx L

/-- C2: on a context that carries no logger under the package key, `From` does
not fail and returns a non-nil logger, the default logger built from the
current state. -/
theorem From_unbound (st : State) (ctx : Context)
    (h : ∀ l, ctx.Value Key.key ≠ some (Any.logger l)) :
    (∃ d : zap.Logger, From st ctx = Except.ok (some d)) ∧
    From st ctx ≠ Except.ok none ∧
    (∀ e, From st ctx ≠ Except.error e) ∧
    From st ctx = Except.ok (some
      { core :=
          if st.hooks = [] then
            NewCore
              { TimeKey := "@timestamp", LevelKey := "level", NameKey := "logger",
                CallerKey := "caller", MessageKey := "msg", StacktraceKey := "stacktrace",
                LineEnding := "\n", EncodeLevel := "LowercaseLevelEncoder",
                EncodeTime := "ISO8601TimeEncoder", EncodeDuration := "NanosDurationEncoder",
                EncodeCaller := "ShortCallerEncoder" }
              Sink.stdout LevelEnabler.logLevel
          else
            Core.hooked
              (NewCore
                { TimeKey := "@timestamp", LevelKey := "level", NameKey := "logger",
                  CallerKey := "caller", MessageKey := "msg", StacktraceKey := "stacktrace",
                  LineEnding := "\n", EncodeLevel := "LowercaseLevelEncoder",
                  EncodeTime := "ISO8601TimeEncoder", EncodeDuration := "NanosDurationEncoder",
                  EncodeCaller := "ShortCallerEncoder" }
                Sink.stdout LevelEnabler.logLevel)
              st.hooks,
        development := false,
        addCaller := true,
        name := "",
        errorOutput := Sink.stderr,
        addStack := LevelEnabler.level DPanicLevel,
        callerSkip := 1 }) := by
  have hd := from_default st ctx h
  unfold From
  rw [hd]
  refine ⟨⟨_, rfl⟩, ?_, ?_, ?_⟩
  · intro hc
    cases hc
  · intro e hc
    cases hc
  · simp [NewCore]

/-- Witness for C2: `context.Background()` in the initial state. -/
theorem From_unbound_witness :
    (∀ l, Context.Background.Value Key.key ≠ some (Any.logger l)) ∧
    (∃ d : zap.Logger, From State.init Context.Background = Except.ok (some d)) ∧
    From State.init Context.Background ≠ Except.ok none :=
  ⟨fun _ hc => (nomatch hc),
   (From_unbound State.init Context.Background (fun _ hc => (nomatch hc))).1,
   (From_unbound State.init Context.Background (fun _ hc => (nomatch hc))).2.1⟩

/-- C3: with zero fields `WithFields` returns the context it was given, whatever
the context carries (a bound nil logger included); the result does not depend
on the package state, which is all a resolution or a default logger would
read, and it is not a context derived by binding a logger. -/
theorem WithFields_nil (st : State) (ctx : Context) :
    WithFields st ctx [] = Except.ok ctx ∧
    (∀ st' : State, WithFields st' ctx [] = WithFields st ctx []) ∧
    (∀ l : zap.LoggerPtr, WithFields st ctx [] ≠ Except.ok (With ctx l)) := by
  have h : ∀ s : State, WithFields s ctx [] = Except.ok ctx := by
    intro s
    simp [WithFields]
  refine ⟨h st, fun st' => (h st').trans (h st).symm, ?_⟩
  intro l hc
  rw [h st] at hc
  injection hc with hc
  exact With_ne_self ctx l hc.symm

/-- C4: for non-empty fields, resolving `WithFields(With(ctx, L), fs...)` gives
`L.With(fs...)` (for a non-nil `L` the clone of `L` whose core carries the
fields; for a nil `L` both sides panic), and `WithFields(ctx, fs...)` is
`With(ctx, From(ctx).With(fs...))`. -/
theorem WithFields_With (st st' : State) (ctx : Context) (L : zap.LoggerPtr)
    (fs : List Field) (h : fs ≠ []) :
    (WithFields st (With ctx L) fs >>= fun c => From st' c) = zap.Logger.With L fs ∧
    (∀ l : zap.Logger, L = some l →
      (WithFields st (With ctx L) fs >>= fun c => From st' c)
        = Except.ok (some { l with core := l.core.With fs })) ∧
    WithFields st ctx fs
      = (From st ctx >>= fun l => zap.Logger.With l fs) >>= fun l => Except.ok (With ctx l) := by
  have hlen : ¬ fs.length = 0 := by
    intro hc
    exact h (List.length_eq_zero.mp hc)
  refine ⟨withFields_resolve st st' ctx L fs h, ?_, ?_⟩
  · intro l hl
    subst hl
    rw [withFields_resolve st st' ctx (some l) fs h]
    simp [zap.Logger.With, hlen, zap.Logger.clone]
  · simp [WithFields, hlen, From]

/-- Witness for C4: one string field on a no-op logger bound to the background
context. -/
theorem WithFields_With_witness :
    [zap.String "key" "value"] ≠ [] ∧
    (WithFields State.init (With Context.Background zap.NewNop) [zap.String "key" "value"]
        >>= fun c => From State.init c)
      = zap.Logger.With zap.NewNop [zap.String "key" "value"] :=
  ⟨by simp,
   (WithFields_With State.init State.init Context.Background zap.NewNop
      [zap.String "key" "value"] (by simp)).1⟩

/-- C5: `WithTraceID(ctx, id)` is `WithFields` with the single string field named
`trace_id` holding `id`; bound over a logger `L` it resolves to
`L.With(String("trace_id", id))`. -/
theorem WithTraceID_eq (st st' : State) (ctx : Context) (id : String) (L : zap.LoggerPtr) :
    WithTraceID st ctx id
      = WithFields st ctx
          [{ Key := "trace_id", Typ := FieldType.StringType, Integer := 0, Str := id }] ∧
    traceID = "trace_id" ∧
    (WithTraceID st (With ctx L) id >>= fun c => From st' c)
      = zap.Logger.With L [zap.String "trace_id" id] := by
  refine ⟨rfl, rfl, ?_⟩
  unfold WithTraceID
  exact withFields_resolve st st' ctx L [zap.String "trace_id" id] (by simp)

/-- C6: the threshold starts at info, and the default logger obtained from an
unbound context in any state reads the shared threshold live: once
`SetLogLevel(v)` has been called, its core reports level `l` enabled exactly
when `v ≤ l`.  Before any call it rejects debug and accepts info; after
`SetLogLevel(Debug)` it accepts both. -/
theorem SetLogLevel_shared (st0 : State) (ctx : Context)
    (hctx : ∀ l, ctx.Value Key.key ≠ some (Any.logger l)) :
    State.init.logLevel = InfoLevel ∧
    ∃ D : zap.Logger, From st0 ctx = Except.ok (some D) ∧
      zap.Logger.Core (some D) = Except.ok D.core ∧
      (∀ (st : State) (v l : Level),
        (Core.Enabled (SetLogLevel st v).logLevel D.core l = true ↔ v ≤ l)) ∧
      Core.Enabled State.init.logLevel D.core DebugLevel = false ∧
      Core.Enabled State.init.logLevel D.core InfoLevel = true ∧
      Core.Enabled (SetLogLevel State.init DebugLevel).logLevel D.core DebugLevel = true ∧
      Core.Enabled (SetLogLevel State.init DebugLevel).logLevel D.core InfoLevel = true := by
  refine ⟨rfl, _, from_default st0 ctx hctx, rfl, ?_, ?_, ?_, ?_, ?_⟩
  · intro st v l
    cases hk : st0.hooks <;> simp [Core.Enabled, LevelEnabler.Enabled, SetLogLevel]
  all_goals
    cases hk : st0.hooks <;>
      simp [Core.Enabled, LevelEnabler.Enabled, SetLogLevel, State.init, DebugLevel, InfoLevel]

/-- Witness for C6: the default logger of the background context in the initial
state. -/
theorem SetLogLevel_shared_witness :
    (∀ l, Context.Background.Value Key.key ≠ some (Any.logger l)) ∧
    ∃ D : zap.Logger, From State.init Context.Background = Except.ok (some D) ∧
      Core.Enabled State.init.logLevel D.core DebugLevel = false ∧
      Core.Enabled (SetLogLevel State.init DebugLevel).logLevel D.core DebugLevel = true :=
  ⟨fun _ hc => (nomatch hc),
   match SetLogLevel_shared State.init Context.Background (fun _ hc => (nomatch hc)) with
   | ⟨_, D, hD, _, _, h1, _, h3, _⟩ => ⟨D, hD, h1, h3⟩⟩

/-- C7, as stated, fails for two kinds of hook sequences `AddHooks` accepts.  A
nil hook: after `AddHooks(nil, h)` an `Info` call on the background context
writes the record and then panics on the call of the nil function, and `h` is
never invoked.  A repeated hook: after `AddHooks(h, h)` the same call invokes
`h` twice for the one entry. -/
theorem AddHooks_nil_or_repeated_hook :
    Info (AddHooks State.init [none, some (Closure.mk 1 (fun _ => HookOutcome.ok))])
        Context.Background "info" []
      = Except.ok
          [Event.write Sink.stdout
            { Level := InfoLevel, LoggerName := "", Message := "info", Caller := some 3,
              Stack := false } [],
           Event.panic nilCallMessage] ∧
    seen 1 InfoLevel
        [Event.write Sink.stdout
          { Level := InfoLevel, LoggerName := "", Message := "info", Caller := some 3,
            Stack := false } [],
         Event.panic nilCallMessage] = 0 ∧
    Info
        (AddHooks State.init
          [some (Closure.mk 1 (fun _ => HookOutcome.ok)),
           some (Closure.mk 1 (fun _ => HookOutcome.ok))])
        Context.Background "info" []
      = Except.ok
          [Event.write Sink.stdout
            { Level := InfoLevel, LoggerName := "", Message := "info", Caller := some 3,
              Stack := false } [],
           Event.hook 1
            { Level := InfoLevel, LoggerName := "", Message := "info", Caller := some 3,
              Stack := false },
           Event.hook 1
            { Level := InfoLevel, LoggerName := "", Message := "info", Caller := some 3,
              Stack := false }] ∧
    seen 1 InfoLevel
        [Event.write Sink.stdout
          { Level := InfoLevel, LoggerName := "", Message := "info", Caller := some 3,
            Stack := false } [],
         Event.hook 1
          { Level := InfoLevel, LoggerName := "", Message := "info", Caller := some 3,
            Stack := false },
         Event.hook 1
          { Level := InfoLevel, LoggerName := "", Message := "info", Caller := some 3,
            Stack := false }] = 2 ∧
    ¬ (∀ (hks : List Hook) (f : Closure) (evs : List Event),
        some f ∈ hks →
        (AddHooks State.init hks).logLevel ≤ InfoLevel →
        Info (AddHooks State.init hks) Context.Background "info" [] = Except.ok evs →
        seen f.id InfoLevel evs = 1) := by
  refine ⟨rfl, rfl, rfl, rfl, ?_⟩
  intro hall
  have h := hall [none, some (Closure.mk 1 (fun _ => HookOutcome.ok))]
    (Closure.mk 1 (fun _ => HookOutcome.ok))
    [Event.write Sink.stdout
      { Level := InfoLevel, LoggerName := "", Message := "info", Caller := some 3,
        Stack := false } [],
     Event.panic nilCallMessage]
    (List.mem_cons_of_mem _ (List.mem_singleton.mpr rfl)) (by decide) rfl
  have h0 : seen 1 InfoLevel
      [Event.write Sink.stdout
        { Level := InfoLevel, LoggerName := "", Message := "info", Caller := some 3,
          Stack := false } [],
       Event.panic nilCallMessage] = 0 := rfl
  rw [h0] at h
  cases h

/-- C7, amended: `AddHooks` calls append to the hook list in registration order
and leave the threshold alone.  When every registered hook is a non-nil
function that returns (with nil or with an error) instead of panicking, an
entry emitted afterwards by a shorthand emitter on an unbound context at a
severity that passes the threshold is handed to each registration exactly
once, in registration order, and every hook sees the entry with the emitter's
level and message: there are as many invocations as registrations, and a hook
function registered once is invoked exactly once.  When the threshold admits
info, one `Error`, one `Info` and one `Warn` call make three invocations per
registration, and a hook registered once sees exactly one error, one info and
one warn entry. -/
theorem AddHooks_each_once (st0 : State) (calls : List (List Hook)) (ctx : Context)
    (sev : Severity) (msg : String) (fields : List Field)
    (hctx : ∀ l, ctx.Value Key.key ≠ some (Any.logger l))
    (hpass : (calls.foldl AddHooks st0).logLevel ≤ sev.level)
    (hwell : wellBehaved (st0.hooks ++ calls.flatten)) :
    (calls.foldl AddHooks st0).hooks = st0.hooks ++ calls.flatten ∧
    (calls.foldl AddHooks st0).logLevel = st0.logLevel ∧
    (∃ evs ent, emit sev (calls.foldl AddHooks st0) ctx msg fields = Except.ok evs ∧
      ent.Level = sev.level ∧ ent.Message = msg ∧
      hookCalls evs
        = (registrations (st0.hooks ++ calls.flatten)).map (fun h => (h, ent)) ∧
      (hookCalls evs).length = (st0.hooks ++ calls.flatten).length ∧
      ∀ f : Closure, some f ∈ st0.hooks ++ calls.flatten →
        1 ≤ seen f.id sev.level evs ∧
        seen f.id sev.level evs = (registrations (st0.hooks ++ calls.flatten)).count f.id ∧
        ((registrations (st0.hooks ++ calls.flatten)).count f.id = 1 →
          seen f.id sev.level evs = 1)) ∧
    ((calls.foldl AddHooks st0).logLevel ≤ InfoLevel →
      ∀ m1 m2 m3 : String, ∃ e i w,
        Error (calls.foldl AddHooks st0) ctx m1 fields = Except.ok e ∧
        Info (calls.foldl AddHooks st0) ctx m2 fields = Except.ok i ∧
        Warn (calls.foldl AddHooks st0) ctx m3 fields = Except.ok w ∧
        (hookCalls (e ++ i ++ w)).length = 3 * (st0.hooks ++ calls.flatten).length ∧
        ∀ f : Closure, some f ∈ st0.hooks ++ calls.flatten →
          (registrations (st0.hooks ++ calls.flatten)).count f.id = 1 →
          seen f.id ErrorLevel (e ++ i ++ w) = 1 ∧
          seen f.id InfoLevel (e ++ i ++ w) = 1 ∧
          seen f.id WarnLevel (e ++ i ++ w) = 1) := by
  have hst := addHooks_calls calls st0
  have hhooks : (calls.foldl AddHooks st0).hooks = st0.hooks ++ calls.flatten := by rw [hst]
  have hlevel : (calls.foldl AddHooks st0).logLevel = st0.logLevel := by rw [hst]
  have hwell' : wellBehaved (calls.foldl AddHooks st0).hooks := by
    rw [hhooks]
    exact hwell
  have hlen : (registrations (st0.hooks ++ calls.flatten)).length
      = (st0.hooks ++ calls.flatten).length :=
    (callHooks_well
      { Level := 0, LoggerName := "", Message := "", Caller := none, Stack := false }
      _ hwell).2.2
  refine ⟨hhooks, hlevel, ?_, ?_⟩
  · obtain ⟨evs, hevs, hcalls⟩ :=
      hookCalls_default (calls.foldl AddHooks st0) ctx hctx sev.level msg fields hpass hwell'
    rw [hhooks] at hcalls
    refine ⟨evs, _, (emit_eq sev _ ctx msg fields).trans hevs, rfl, rfl, hcalls, ?_, ?_⟩
    · rw [hcalls, List.length_map, hlen]
    · intro f hf
      have hseen : seen f.id sev.level evs
          = (registrations (st0.hooks ++ calls.flatten)).count f.id := by
        rw [seen_eq f.id sev.level _ _ evs hcalls]
        simp
      refine ⟨?_, hseen, fun h1 => hseen.trans h1⟩
      rw [hseen]
      exact List.count_pos_iff.mpr (mem_registrations f _ hf)
  · intro hinfo m1 m2 m3
    have hE : (calls.foldl AddHooks st0).logLevel ≤ ErrorLevel :=
      le_trans hinfo (by decide)
    have hW : (calls.foldl AddHooks st0).logLevel ≤ WarnLevel :=
      le_trans hinfo (by decide)
    obtain ⟨e, he, hce⟩ :=
      hookCalls_default (calls.foldl AddHooks st0) ctx hctx ErrorLevel m1 fields hE hwell'
    obtain ⟨i, hi, hci⟩ :=
      hookCalls_default (calls.foldl AddHooks st0) ctx hctx InfoLevel m2 fields hinfo hwell'
    obtain ⟨w, hw, hcw⟩ :=
      hookCalls_default (calls.foldl AddHooks st0) ctx hctx WarnLevel m3 fields hW hwell'
    rw [hhooks] at hce hci hcw
    refine ⟨e, i, w, he, hi, hw, ?_, ?_⟩
    · rw [hookCalls_append, hookCalls_append, hce, hci, hcw]
      simp only [List.length_append, List.length_map, hlen]
      omega
    · intro f _ hone
      simp only [seen_append, seen_eq f.id _ _ _ e hce, seen_eq f.id _ _ _ i hci,
        seen_eq f.id _ _ _ w hcw, hone]
      simp [ErrorLevel, InfoLevel, WarnLevel]

/-- Witness for the amended C7: three hooks registered over two calls in the
initial state, one of which returns an error, then a warning on the
background context. -/
theorem AddHooks_each_once_witness :
    (∀ l, Context.Background.Value Key.key ≠ some (Any.logger l)) ∧
    ([[some (Closure.mk 1 (fun _ => HookOutcome.ok)),
        some (Closure.mk 2 (fun _ => HookOutcome.error "failed"))],
       [some (Closure.mk 3 (fun _ => HookOutcome.ok))]].foldl AddHooks State.init).logLevel
      ≤ Severity.warn.level ∧
    ∃ evs ent,
      emit Severity.warn
        ([[some (Closure.mk 1 (fun _ => HookOutcome.ok)),
            some (Closure.mk 2 (fun _ => HookOutcome.error "failed"))],
           [some (Closure.mk 3 (fun _ => HookOutcome.ok))]].foldl AddHooks State.init)
        Context.Background "warning" [] = Except.ok evs ∧
      ent.Level = Severity.warn.level ∧ ent.Message = "warning" ∧
      hookCalls evs = [(1, ent), (2, ent), (3, ent)] :=
  ⟨fun _ hc => (nomatch hc), by decide,
   match (AddHooks_each_once State.init
      [[some (Closure.mk 1 (fun _ => HookOutcome.ok)),
        some (Closure.mk 2 (fun _ => HookOutcome.error "failed"))],
       [some (Closure.mk 3 (fun _ => HookOutcome.ok))]] Context.Background
      Severity.warn "warning" [] (fun _ hc => (nomatch hc)) (by decide)
      (by
        intro h hh
        simp only [State.init, List.nil_append, List.flatten, List.append_nil, List.mem_cons,
          List.mem_singleton, List.cons_append, List.not_mem_nil, or_false] at hh
        rcases hh with rfl | rfl | rfl
        · exact ⟨_, rfl, fun _ _ hc => (nomatch hc)⟩
        · exact ⟨_, rfl, fun _ _ hc => (nomatch hc)⟩
        · exact ⟨_, rfl, fun _ _ hc => (nomatch hc)⟩)).2.2.1 with
   | ⟨evs, ent, hev, hl, hm, hc, _⟩ => ⟨evs, ent, hev, hl, hm, hc⟩⟩

/-- C8: each shorthand emitter resolves the logger as `From` does and calls the
level method of its own severity on it with the message and fields it was
given; so every record written and every hook call of an emitter carries the
emitter's severity and the message, and a written record ends with the given
fields. -/
theorem emitters_resolve_then_emit (st : State) (ctx : Context) (msg : String)
    (fields : List Field) (sev : Severity) (evs : List Event) (ev : Event)
    (h : emit sev st ctx msg fields = Except.ok evs) (hev : ev ∈ evs) :
    (Debug st ctx msg fields
      = (From st ctx >>= fun l => zap.Logger.log st.logLevel l DebugLevel msg fields)) ∧
    (Info st ctx msg fields
      = (From st ctx >>= fun l => zap.Logger.log st.logLevel l InfoLevel msg fields)) ∧
    (Warn st ctx msg fields
      = (From st ctx >>= fun l => zap.Logger.log st.logLevel l WarnLevel msg fields)) ∧
    (Error st ctx msg fields
      = (From st ctx >>= fun l => zap.Logger.log st.logLevel l ErrorLevel msg fields)) ∧
    (Fatal st ctx msg fields
      = (From st ctx >>= fun l => zap.Logger.log st.logLevel l FatalLevel msg fields)) ∧
    (∀ out ent fs, ev = Event.write out ent fs →
      ent.Level = sev.level ∧ ent.Message = msg ∧ ∃ pre, fs = pre ++ fields) ∧
    (∀ hk ent, ev = Event.hook hk ent → ent.Level = sev.level ∧ ent.Message = msg) := by
  refine ⟨rfl, rfl, rfl, rfl, rfl, ?_⟩
  rw [emit_eq] at h
  obtain ⟨p, hp⟩ := from_total st ctx
  rw [hp] at h
  exact log_events st.logLevel p sev.level msg fields evs h ev hev

/-- Witness for C8: `Error` on the background context in the initial state
writes one record at error level with the given message and field. -/
theorem emitters_resolve_then_emit_witness :
    emit Severity.error State.init Context.Background "error" [zap.String "k" "v"]
      = Except.ok [Event.write Sink.stdout
          { Level := ErrorLevel, LoggerName := "", Message := "error", Caller := some 3,
            Stack := false } [zap.String "k" "v"]] ∧
    ErrorLevel = Severity.error.level ∧
    ∃ pre, [zap.String "k" "v"] = pre ++ [zap.String "k" "v"] :=
  ⟨rfl, rfl,
   ((emitters_resolve_then_emit State.init Context.Background "error" [zap.String "k" "v"]
      Severity.error
      [Event.write Sink.stdout
        { Level := ErrorLevel, LoggerName := "", Message := "error", Caller := some 3,
          Stack := false } [zap.String "k" "v"]]
      (Event.write Sink.stdout
        { Level := ErrorLevel, LoggerName := "", Message := "error", Caller := some 3,
          Stack := false } [zap.String "k" "v"])
      rfl (List.mem_singleton.mpr rfl)).2.2.2.2.2.1
        _ _ _ rfl).2.2⟩

/-- C9, as stated, fails: in the initial state `Warn` on the background context
writes a record at warn level and `Fatal` one at fatal level, and with the
threshold lowered to debug `Debug` writes one at debug level; none of the
three levels is info. -/
theorem Debug_Warn_Fatal_not_info :
    Warn State.init Context.Background "warning" []
      = Except.ok [Event.write Sink.stdout
          { Level := WarnLevel, LoggerName := "", Message := "warning", Caller := some 3,
            Stack := false } []] ∧
    WarnLevel ≠ InfoLevel ∧
    Debug (SetLogLevel State.init DebugLevel) Context.Background "debug" []
      = Except.ok [Event.write Sink.stdout
          { Level := DebugLevel, LoggerName := "", Message := "debug", Caller := some 3,
            Stack := false } []] ∧
    DebugLevel ≠ InfoLevel ∧
    Fatal State.init Context.Background "fatal" []
      = Except.ok [Event.write Sink.stdout
          { Level := FatalLevel, LoggerName := "", Message := "fatal", Caller := some 3,
            Stack := true } [], Event.sync Sink.stdout, Event.exit] ∧
    FatalLevel ≠ InfoLevel ∧
    ¬ (∀ (st : State) (ctx : Context) (msg : String) (fields : List Field) (evs : List Event)
        (ev : Event) (ent : Entry),
        (Debug st ctx msg fields = Except.ok evs ∨ Warn st ctx msg fields = Except.ok evs ∨
          Fatal st ctx msg fields = Except.ok evs) →
        ev ∈ evs → entryOf ev = some ent → ent.Level = InfoLevel) := by
  refine ⟨rfl, by decide, rfl, by decide, rfl, by decide, ?_⟩
  intro hall
  have h := hall State.init Context.Background "warning" []
    [Event.write Sink.stdout
      { Level := WarnLevel, LoggerName := "", Message := "warning", Caller := some 3,
        Stack := false } []]
    (Event.write Sink.stdout
      { Level := WarnLevel, LoggerName := "", Message := "warning", Caller := some 3,
        Stack := false } [])
    { Level := WarnLevel, LoggerName := "", Message := "warning", Caller := some 3,
      Stack := false }
    (Or.inr (Or.inl rfl)) (List.mem_singleton.mpr rfl) rfl
  exact absurd h (by decide)

/-- C9, amended: every record written and every hook call of `Debug`, of `Warn`
and of `Fatal` carries the level debug, warn and fatal respectively, never
info. -/
theorem Debug_Warn_Fatal_own_level (st : State) (ctx : Context) (msg : String)
    (fields : List Field) (evs : List Event) (ev : Event) (ent : Entry)
    (hev : ev ∈ evs) (hent : entryOf ev = some ent) :
    (Debug st ctx msg fields = Except.ok evs →
      ent.Level = DebugLevel ∧ ent.Level ≠ InfoLevel) ∧
    (Warn st ctx msg fields = Except.ok evs →
      ent.Level = WarnLevel ∧ ent.Level ≠ InfoLevel) ∧
    (Fatal st ctx msg fields = Except.ok evs →
      ent.Level = FatalLevel ∧ ent.Level ≠ InfoLevel) := by
  refine ⟨?_, ?_, ?_⟩
  · intro h
    have hl := (emit_entry Severity.debug st ctx msg fields evs ev ent h hev hent).1
    refine ⟨hl, ?_⟩
    rw [hl]
    decide
  · intro h
    have hl := (emit_entry Severity.warn st ctx msg fields evs ev ent h hev hent).1
    refine ⟨hl, ?_⟩
    rw [hl]
    decide
  · intro h
    have hl := (emit_entry Severity.fatal st ctx msg fields evs ev ent h hev hent).1
    refine ⟨hl, ?_⟩
    rw [hl]
    decide

/-- Witness for the amended C9: the record `Fatal` writes on the background
context in the initial state. -/
theorem Debug_Warn_Fatal_own_level_witness :
    Fatal State.init Context.Background "fatal" []
      = Except.ok [Event.write Sink.stdout
          { Level := FatalLevel, LoggerName := "", Message := "fatal", Caller := some 3,
            Stack := true } [], Event.sync Sink.stdout, Event.exit] ∧
    (5 : Level) = FatalLevel ∧ (5 : Level) ≠ InfoLevel :=
  ⟨rfl,
   (Debug_Warn_Fatal_own_level State.init Context.Background "fatal" []
      [Event.write Sink.stdout
        { Level := FatalLevel, LoggerName := "", Message := "fatal", Caller := some 3,
          Stack := true } [], Event.sync Sink.stdout, Event.exit]
      (Event.write Sink.stdout
        { Level := FatalLevel, LoggerName := "", Message := "fatal", Caller := some 3,
          Stack := true } [])
      { Level := 5, LoggerName := "", Message := "fatal", Caller := some 3, Stack := true }
      (List.mem_cons_self _ _) rfl).2.2 rfl⟩

/-- C10: `From` never panics and returns nil exactly when the nearest binding
under the package key is a nil logger pointer.  Starting from a context with
no bound logger, any finite sequence of `With` (with non-nil loggers),
`WithFields` and `WithTraceID` calls runs to the end and yields a context on
which, in every package state, `From` returns a non-nil logger and each of
the five shorthand emitters reaches the level method of that logger without
dereferencing a nil logger (what the level method then does is its list of
events). -/
theorem From_nonNil_derived (ctx0 : Context) (ops : List Op)
    (h0 : ∀ l, ctx0.Value Key.key ≠ some (Any.logger l))
    (hops : ops.all Op.nonNil = true) :
    (∀ (st : State) (ctx : Context),
      (From st ctx = Except.ok none ↔ ctx.Value Key.key = some (Any.logger none)) ∧
      ∃ p, From st ctx = Except.ok p) ∧
    ∃ ctx', runOps ctx0 ops = Except.ok ctx' ∧
      ∀ st : State,
        (∃ l : zap.Logger, From st ctx' = Except.ok (some l)) ∧
        From st ctx' ≠ Except.ok none ∧
        ∀ (sev : Severity) (msg : String) (fields : List Field),
          ∃ evs, emit sev st ctx' msg fields = Except.ok evs ∧
            emit sev st ctx' msg fields ≠ Except.error Panic.nilDereference := by
  refine ⟨fun st ctx => ⟨from_nil_iff st ctx, from_total st ctx⟩, ?_⟩
  have hbase : ∀ st, ∃ l : zap.Logger, from' st ctx0 = Except.ok (some l) :=
    fun st => ⟨_, from_default st ctx0 h0⟩
  obtain ⟨ctx', hrun, hgood⟩ := runOps_preserves ops ctx0 hbase hops
  refine ⟨ctx', hrun, ?_⟩
  intro st
  obtain ⟨l, hl⟩ := hgood st
  refine ⟨⟨l, hl⟩, ?_, ?_⟩
  · intro hc
    have hl' : From st ctx' = Except.ok (some l) := hl
    rw [hl'] at hc
    cases hc
  · intro sev msg fields
    obtain ⟨evs, hevs⟩ := emit_returns sev st ctx' msg fields l hl
    refine ⟨evs, hevs, ?_⟩
    rw [hevs]
    intro hc
    cases hc

/-- Witness for C10: the background context, then a no-op logger bound, a trace
id attached and one more field added. -/
theorem From_nonNil_derived_witness :
    (∀ l, Context.Background.Value Key.key ≠ some (Any.logger l)) ∧
    [Op.With zap.NewNop, Op.WithTraceID State.init "a-trace-id",
      Op.WithFields State.init [zap.String "key" "value"]].all Op.nonNil = true ∧
    ∃ ctx', runOps Context.Background
        [Op.With zap.NewNop, Op.WithTraceID State.init "a-trace-id",
          Op.WithFields State.init [zap.String "key" "value"]] = Except.ok ctx' ∧
      ∀ st : State, ∃ l : zap.Logger, From st ctx' = Except.ok (some l) :=
  ⟨fun _ hc => (nomatch hc), rfl,
   match (From_nonNil_derived Context.Background
      [Op.With zap.NewNop, Op.WithTraceID State.init "a-trace-id",
        Op.WithFields State.init [zap.String "key" "value"]]
      (fun _ hc => (nomatch hc)) rfl).2 with
   | ⟨ctx', hrun, hall⟩ => ⟨ctx', hrun, fun st => (hall st).1⟩⟩

end zapctx
